import Mathlib

/-!
Verification of the multichain-go snapshot-computation-and-transport pipeline.

This file is a shallow embedding of the Go sources of `Layr-Labs/multichain-go`:
pure functions become Lean functions, Go maps become finitely-used functions to
`Option`, and external collaborators (registry contract calls, the Merkle-tree
library, KMS, RPC) are passed in as explicit oracle arguments of `Except` type,
mirroring the `(value, error)` pairs the Go code receives from them.
Machine integers are modelled as `Nat`; all quantities involved (slice indices,
group counts, gas values) stay far below 2^64 in any execution the code is
designed for, so no wrap-around modelling is needed where it cannot occur.
-/

namespace Multichain

/-- Embeds `distribution.OperatorSet`: an Id (uint32) with an Avs address.
The address is modelled as its 20-byte numeric value. The struct is a value
type used as a Go map key, so equality is field-wise (decidable). -/
structure OperatorSet where
  id : Nat
  avs : Nat
deriving DecidableEq, Repr

/-- Embeds `distribution.Distribution`: the two maps `TableIndices` and `tableData`,
each modelled as a function to `Option` (a Go map lookup returns the value and
an `ok` flag, i.e. exactly an `Option`). -/
structure Distribution where
  tableIndices : OperatorSet → Option Nat
  tableData : OperatorSet → Option (List Nat)

/-- Embeds `distribution.NewDistribution`: both maps start empty. -/
def newDistribution : Distribution :=
  ⟨fun _ => none, fun _ => none⟩

/-- One Go map assignment `m[k] = v`: later writes to the same key overwrite
earlier ones. -/
def mapInsertIdx (m : OperatorSet → Option Nat) (k : OperatorSet) (v : Nat) :
    OperatorSet → Option Nat :=
  fun k2 => if k2 = k then some v else m k2

/-- The loop body of `Distribution.SetOperatorSets`:
`for i, opset := range operatorSets { d.TableIndices[opset] = uint64(i) }`,
started at index `i`. -/
def setIndicesFrom (m : OperatorSet → Option Nat) :
    List OperatorSet → Nat → (OperatorSet → Option Nat)
  | [], _ => m
  | opset :: rest, i => setIndicesFrom (mapInsertIdx m opset i) rest (i + 1)

/-- Embeds `Distribution.SetOperatorSets`. -/
def Distribution.setOperatorSets (d : Distribution) (opsets : List OperatorSet) :
    Distribution :=
  { d with tableIndices := setIndicesFrom d.tableIndices opsets 0 }

/-- Embeds `distribution.NewDistributionWithOperatorSets`. -/
def newDistributionWithOperatorSets (opsets : List OperatorSet) : Distribution :=
  newDistribution.setOperatorSets opsets

/-- Embeds `Distribution.GetTableIndex`. -/
def Distribution.getTableIndex (d : Distribution) (k : OperatorSet) : Option Nat :=
  d.tableIndices k

/-- Embeds `Distribution.SetTableData`: errors when the operator set has no index. -/
def Distribution.setTableData (d : Distribution) (k : OperatorSet) (data : List Nat) :
    Except String Distribution :=
  match d.tableIndices k with
  | none => .error "operator set does not exist in the distribution"
  | some _ => .ok { d with tableData := fun k2 => if k2 = k then some data else d.tableData k2 }

/-- Embeds `Distribution.GetTableData`. -/
def Distribution.getTableData (d : Distribution) (k : OperatorSet) : Option (List Nat) :=
  d.tableData k

/-- Index of the last occurrence of `k` in a list (`none` when absent).
This is the specification-side notion used to describe what repeated Go map
assignments in list order leave behind. -/
def lastOcc : List OperatorSet → OperatorSet → Option Nat
  | [], _ => none
  | a :: rest, k =>
    match lastOcc rest k with
    | some j => some (j + 1)
    | none => if a = k then some 0 else none

theorem setIndicesFrom_eq (l : List OperatorSet) (m : OperatorSet → Option Nat)
    (i : Nat) (k : OperatorSet) :
    setIndicesFrom m l i k =
      match lastOcc l k with
      | some j => some (i + j)
      | none => m k := by
  induction l generalizing m i with
  | nil => simp [setIndicesFrom, lastOcc]
  | cons a rest ih =>
    simp only [setIndicesFrom, lastOcc]
    rw [ih]
    cases h : lastOcc rest k with
    | some j => simp [Nat.add_assoc, Nat.add_comm 1 j]
    | none =>
      by_cases hak : a = k
      · simp [mapInsertIdx, hak]
      · have : ¬ (k = a) := fun h2 => hak h2.symm
        simp [mapInsertIdx, hak, this]

theorem lastOcc_getElem {l : List OperatorSet} {k : OperatorSet} {n : Nat}
    (h : lastOcc l k = some n) : l[n]? = some k := by
  induction l generalizing n with
  | nil => simp [lastOcc] at h
  | cons a rest ih =>
    simp only [lastOcc] at h
    cases hrest : lastOcc rest k with
    | some j =>
      rw [hrest] at h
      cases h
      simpa using ih hrest
    | none =>
      rw [hrest] at h
      by_cases hak : a = k
      · simp [hak] at h
        subst hak
        cases h
        simp
      · simp [hak] at h

theorem lastOcc_isSome_of_mem {l : List OperatorSet} {k : OperatorSet}
    (h : k ∈ l) : lastOcc l k ≠ none := by
  induction l with
  | nil => simp at h
  | cons a rest ih =>
    simp only [lastOcc]
    cases hb : lastOcc rest k with
    | some j => simp
    | none =>
      rcases List.mem_cons.mp h with h1 | h2
      · simp [h1.symm]
      · exact absurd (ih h2) (by simp [hb])

theorem lastOcc_last {l : List OperatorSet} {k : OperatorSet} {n : Nat}
    (h : lastOcc l k = some n) : ∀ m, n < m → l[m]? ≠ some k := by
  induction l generalizing n with
  | nil => intro m _; simp
  | cons a rest ih =>
    intro m hm
    simp only [lastOcc] at h
    cases hrest : lastOcc rest k with
    | some j =>
      rw [hrest] at h
      cases h
      match m, hm with
      | m + 1, hm =>
        simpa using ih hrest m (Nat.lt_of_succ_lt_succ hm)
    | none =>
      rw [hrest] at h
      by_cases hak : a = k
      · simp only [hak, if_pos rfl] at h
        cases h
        match m, hm with
        | m + 1, _ =>
          simp only [List.getElem?_cons_succ]
          intro hcon
          have hkmem : k ∈ rest := List.getElem?_mem hcon
          exact lastOcc_isSome_of_mem hkmem hrest
      · simp [hak] at h

theorem lastOcc_mem {l : List OperatorSet} {k : OperatorSet} {n : Nat}
    (h : lastOcc l k = some n) : k ∈ l :=
  List.getElem?_mem (lastOcc_getElem h)

/-- Full characterization: `lastOcc l k = some n` iff `k` sits at position `n`
and at no later position. -/
theorem lastOcc_iff {l : List OperatorSet} {k : OperatorSet} {n : Nat} :
    lastOcc l k = some n ↔ (l[n]? = some k ∧ ∀ m, n < m → l[m]? ≠ some k) := by
  constructor
  · intro h
    exact ⟨lastOcc_getElem h, lastOcc_last h⟩
  · rintro ⟨hget, hlast⟩
    have hkmem : k ∈ l := List.getElem?_mem hget
    cases hj : lastOcc l k with
    | none => exact absurd hj (lastOcc_isSome_of_mem hkmem)
    | some j =>
      rcases Nat.lt_trichotomy j n with hlt | heq | hgt
      · exact absurd hget (lastOcc_last hj n hlt)
      · rw [heq]
      · exact absurd (lastOcc_getElem hj) (hlast j hgt)

/-- The table-index map produced by `SetOperatorSets` from an empty map is
exactly `lastOcc`. -/
theorem newDistributionWithOperatorSets_tableIndices (l : List OperatorSet)
    (k : OperatorSet) :
    (newDistributionWithOperatorSets l).tableIndices k = lastOcc l k := by
  show setIndicesFrom (fun _ => none) l 0 k = lastOcc l k
  rw [setIndicesFrom_eq]
  cases h : lastOcc l k <;> simp

/-! ### Paginated fetch (`operatorTableCalculator.fetchActiveGenerationReservationsPaginated`)

The registry is an external contract; its two read methods are passed in as
oracles returning `Except`, mirroring the Go pattern of value-and-error returns:
`getCount` for `GetActiveGenerationReservationCount` and `getRange` for
`GetActiveGenerationReservationsByRange`. -/

/-- The Go error-wrapping idiom of returning early with a wrapped error when
a callee fails: pass a success through, prefix the message of a failure. -/
def wrapErr {α : Type} (pre : String) : Except String α → Except String α
  | .error e => .error (pre ++ e)
  | .ok v => .ok v

/-- The paging loop of `fetchActiveGenerationReservationsPaginated`:
`for startIndex := 0; startIndex < totalCount; startIndex += pageSize` with
`pageSize = 50` and `endIndex := min(startIndex+pageSize, totalCount)`;
pages are concatenated in fetch order and a page failure aborts with a
wrapped error naming the range. -/
def fetchLoop (getRange : Nat → Nat → Except String (List OperatorSet))
    (totalCount start : Nat) : Except String (List OperatorSet) :=
  if h : start < totalCount then
    (wrapErr "failed to fetch active generation reservations for range: "
        (getRange start (if start + 50 > totalCount then totalCount else start + 50))).bind
      (fun page =>
        (fetchLoop getRange totalCount (start + 50)).bind
          (fun rest => .ok (page ++ rest)))
  else .ok []
termination_by totalCount - start

/-- Embeds `fetchActiveGenerationReservationsPaginated`: read the count, short-circuit
at zero, then run the paging loop from offset 0. -/
def fetchActiveGenerationReservationsPaginated
    (getCount : Except String Nat)
    (getRange : Nat → Nat → Except String (List OperatorSet)) :
    Except String (List OperatorSet) :=
  match getCount with
  | .error e => .error ("failed to fetch generation reservation count: " ++ e)
  | .ok totalCount =>
    if totalCount = 0 then .ok []
    else fetchLoop getRange totalCount 0

/-- The sequence of `(startIndex, endIndex)` ranges the paging loop requests,
read off from the same loop structure. -/
def pageRanges (totalCount start : Nat) : List (Nat × Nat) :=
  if start < totalCount then
    (start, if start + 50 > totalCount then totalCount else start + 50) ::
      pageRanges totalCount (start + 50)
  else []
termination_by totalCount - start

/-- Issue `getRange` on a given list of ranges in order, concatenating the
pages and aborting on the first failure (with the error wrapping of the loop). -/
def runRanges (getRange : Nat → Nat → Except String (List OperatorSet)) :
    List (Nat × Nat) → Except String (List OperatorSet)
  | [] => .ok []
  | (s, e) :: rest =>
    (wrapErr "failed to fetch active generation reservations for range: "
        (getRange s e)).bind
      (fun page => (runRanges getRange rest).bind (fun restL => .ok (page ++ restL)))

theorem fetchLoop_eq_runRanges (getRange : Nat → Nat → Except String (List OperatorSet))
    (totalCount : Nat) : ∀ start,
    fetchLoop getRange totalCount start = runRanges getRange (pageRanges totalCount start) := by
  intro start
  induction start using fetchLoop.induct getRange totalCount with
  | case1 start hlt ih =>
    rw [fetchLoop, pageRanges]
    simp only [dif_pos hlt, if_pos hlt, runRanges]
    simp only [ih]
  | case2 start hlt =>
    rw [fetchLoop, pageRanges]
    simp [hlt, runRanges]

theorem pageRanges_length (totalCount : Nat) : ∀ start,
    (pageRanges totalCount start).length = (totalCount - start + 49) / 50 := by
  intro start
  induction start using pageRanges.induct totalCount with
  | case1 start hlt ih =>
    rw [pageRanges]
    simp only [if_pos hlt, List.length_cons]
    rw [ih]
    omega
  | case2 start hlt =>
    rw [pageRanges]
    simp only [if_neg hlt, List.length_nil]
    omega

theorem pageRanges_get (totalCount : Nat) : ∀ start, 50 ∣ start →
    ∀ i, (pageRanges totalCount start)[i]? =
      if start + 50 * i < totalCount then
        some (start + 50 * i, min (start + 50 * i + 50) totalCount)
      else none := by
  intro start
  induction start using pageRanges.induct totalCount with
  | case1 start hlt ih =>
    intro hdvd i
    rw [pageRanges]
    simp only [if_pos hlt]
    cases i with
    | zero =>
      simp only [List.getElem?_cons_zero, Nat.mul_zero, Nat.add_zero, if_pos hlt]
      by_cases h50 : start + 50 > totalCount
      · simp only [if_pos h50, Option.some.injEq, Prod.mk.injEq, true_and]
        exact (min_eq_right (by omega)).symm
      · simp only [if_neg h50, Option.some.injEq, Prod.mk.injEq, true_and]
        exact (min_eq_left (by omega)).symm
    | succ j =>
      simp only [List.getElem?_cons_succ]
      rw [ih (by omega) j]
      have : start + 50 + 50 * j = start + 50 * (j + 1) := by ring
      rw [this]
  | case2 start hlt =>
    intro hdvd i
    rw [pageRanges]
    simp only [if_neg hlt, List.getElem?_nil]
    have : ¬ start + 50 * i < totalCount := by omega
    rw [if_neg this]

theorem fetchLoop_length (getRange : Nat → Nat → Except String (List OperatorSet))
    (totalCount : Nat) : ∀ start,
    (∀ s e, (s, e) ∈ pageRanges totalCount start →
      ∃ page, getRange s e = .ok page ∧ page.length = e - s) →
    ∃ l, fetchLoop getRange totalCount start = .ok l ∧ l.length = totalCount - start := by
  intro start
  induction start using fetchLoop.induct getRange totalCount with
  | case1 start hlt ih =>
    intro hpages
    set endIndex := if start + 50 > totalCount then totalCount else start + 50 with hEnd
    have hmem : (start, endIndex) ∈ pageRanges totalCount start := by
      rw [pageRanges]
      simp [if_pos hlt, hEnd]
    rcases hpages start endIndex hmem with ⟨page, hpage, hplen⟩
    have hrest : ∀ s e, (s, e) ∈ pageRanges totalCount (start + 50) →
        ∃ p, getRange s e = .ok p ∧ p.length = e - s := by
      intro s e hmem2
      refine hpages s e ?_
      rw [pageRanges]
      simp only [if_pos hlt]
      exact List.mem_cons_of_mem _ hmem2
    rcases ih hrest with ⟨rest, hrestEq, hrestLen⟩
    refine ⟨page ++ rest, ?_, ?_⟩
    · rw [fetchLoop]
      simp only [dif_pos hlt, ← hEnd, hpage, wrapErr, hrestEq, Except.bind]
    · have h5 : (start + 50 > totalCount ∧ endIndex = totalCount) ∨
          (¬ start + 50 > totalCount ∧ endIndex = start + 50) := by
        rw [hEnd]
        split
        · exact Or.inl ⟨by assumption, rfl⟩
        · exact Or.inr ⟨by assumption, rfl⟩
      simp only [List.length_append, hplen, hrestLen]
      omega
  | case2 start hlt =>
    intro _
    refine ⟨[], ?_, ?_⟩
    · rw [fetchLoop]; simp [hlt]
    · simp; omega

/-- C3: for every active-group count returned by the registry, (i) the
paginated fetch is exactly the sequential execution of the requested ranges in
order, (ii) there are `ceil(count/50)` of them, (iii) the `i`-th requested
range is `[50*i, min(50*i+50, count))` (page size 50 starting from offset 0),
(iv) when every requested range returns a page of that range size, the
concatenation in page order has total length `count`, and (v) a count of 0
issues zero range calls and returns an empty, non-error result. -/
theorem fetchPaginated_pagination (count : Nat)
    (getRange : Nat → Nat → Except String (List OperatorSet)) :
    (fetchActiveGenerationReservationsPaginated (.ok count) getRange =
      runRanges getRange (pageRanges count 0))
    ∧ (pageRanges count 0).length = (count + 49) / 50
    ∧ (∀ i, (pageRanges count 0)[i]? =
        if 50 * i < count then some (50 * i, min (50 * i + 50) count) else none)
    ∧ ((∀ s e, (s, e) ∈ pageRanges count 0 →
          ∃ page, getRange s e = .ok page ∧ page.length = e - s) →
        ∃ l, fetchActiveGenerationReservationsPaginated (.ok count) getRange = .ok l ∧
          l.length = count)
    ∧ (count = 0 → fetchActiveGenerationReservationsPaginated (.ok count) getRange = .ok []
        ∧ pageRanges count 0 = []) := by
  have hzero : count = 0 →
      fetchActiveGenerationReservationsPaginated (.ok count) getRange = .ok []
        ∧ pageRanges count 0 = [] := by
    rintro rfl
    constructor
    · rfl
    · rw [pageRanges]; simp
  refine ⟨?_, ?_, ?_, ?_, hzero⟩
  · by_cases h0 : count = 0
    · rcases hzero h0 with ⟨h1, h2⟩
      rw [h1, h2]
      rfl
    · show (if count = 0 then Except.ok [] else fetchLoop getRange count 0) = _
      rw [if_neg h0]
      exact fetchLoop_eq_runRanges getRange count 0
  · rw [pageRanges_length]
    omega
  · intro i
    have := pageRanges_get count 0 ⟨0, rfl⟩ i
    simpa using this
  · intro hpages
    by_cases h0 : count = 0
    · exact ⟨[], (hzero h0).1, by simp [h0]⟩
    · rcases fetchLoop_length getRange count 0 hpages with ⟨l, hl, hlen⟩
      refine ⟨l, ?_, by omega⟩
      show (if count = 0 then Except.ok [] else fetchLoop getRange count 0) = _
      rw [if_neg h0]
      exact hl

theorem fetchPaginated_pagination_witness :
    ∃ l, fetchActiveGenerationReservationsPaginated (.ok 125)
        (fun s e => .ok (List.replicate (e - s) ⟨1, 10⟩)) = .ok l ∧ l.length = 125 :=
  (fetchPaginated_pagination 125 (fun s e => .ok (List.replicate (e - s) ⟨1, 10⟩))).2.2.2.1
    (fun s e _ => ⟨List.replicate (e - s) ⟨1, 10⟩, rfl, List.length_replicate _ _⟩)

/-! ### Stake-table root calculation (`operatorTableCalculator.CalculateStakeTableRoot`)

`CalculateOperatorTableBytes` (registry call), `EncodeOperatorTableLeaf`
(helper referenced from the distribution package) and `merkletree.NewTree`
(external Merkle library) are passed in as oracles; the claims settled here do
not depend on their internals. -/

/-- The tree value of the external Merkle library, of which the calculator only
reads `Root()`. -/
structure MerkleTreeM where
  root : List Nat

/-- The successful result triple of `CalculateStakeTableRoot`:
`(root, tree, distribution)`. The tree pointer is `nil` (`none`) on the
zero-groups path. Leaves passed to the tree builder are `Option` values
because a skipped group leaves its pre-allocated `[][]byte` slot `nil`. -/
structure CalcResult where
  root : List Nat
  tree : Option MerkleTreeM
  dist : Distribution

/-- Embeds the Go declaration of `zeroRoot`, the all-zero 32-byte sentinel root. -/
def zeroRoot : List Nat := List.replicate 32 0

/-- Success test on `Except` (the Go check that err is nil). -/
def isOkE {α : Type} : Except String α → Bool
  | .ok _ => true
  | .error _ => false

/-- The per-group loop of `CalculateStakeTableRoot` (current version): for each
operator set in order, compute its table bytes; on failure log and `continue`
(slot left `nil`, no table data stored); on success store the encoded leaf at
the position of the group and `SetTableData` (whose failure aborts the whole
calculation). Returns the final distribution and the leaf slots in order. -/
def calcLoop (calcBytes : OperatorSet → Except String (List Nat))
    (encodeLeaf : List Nat → List Nat) :
    List OperatorSet → Distribution →
    Except String (Distribution × List (Option (List Nat)))
  | [], d => .ok (d, [])
  | opset :: rest, d =>
    match calcBytes opset with
    | .error _ =>
      match calcLoop calcBytes encodeLeaf rest d with
      | .error e => .error e
      | .ok (d2, leaves) => .ok (d2, none :: leaves)
    | .ok tableBytes =>
      match d.setTableData opset tableBytes with
      | .error e => .error ("failed to set table data for opset: " ++ e)
      | .ok d2 =>
        match calcLoop calcBytes encodeLeaf rest d2 with
        | .error e => .error e
        | .ok (d3, leaves) => .ok (d3, some (encodeLeaf tableBytes) :: leaves)

/-- Embeds `CalculateStakeTableRoot`: paginated fetch of active groups, zero-groups
short-circuit to the zero root with an empty distribution and no error, index
assignment in fetch order, per-group loop, then Merkle-tree construction over
the ordered leaf slots. -/
def calculateStakeTableRoot
    (getCount : Except String Nat)
    (getRange : Nat → Nat → Except String (List OperatorSet))
    (calcBytes : OperatorSet → Except String (List Nat))
    (encodeLeaf : List Nat → List Nat)
    (newTree : List (Option (List Nat)) → Except String MerkleTreeM) :
    Except String CalcResult :=
  match fetchActiveGenerationReservationsPaginated getCount getRange with
  | .error e => .error ("failed to fetch active generation reservations: " ++ e)
  | .ok opsets =>
    if opsets.length = 0 then .ok ⟨zeroRoot, none, newDistribution⟩
    else
      let dist := newDistribution.setOperatorSets opsets
      match calcLoop calcBytes encodeLeaf opsets dist with
      | .error e => .error e
      | .ok (dist2, leaves) =>
        match newTree leaves with
        | .error e => .error ("calculator: failed to create merkle tree: " ++ e)
        | .ok tree => .ok ⟨tree.root, some tree, dist2⟩

/-- C4: when the registry reports zero active groups, `CalculateStakeTableRoot`
returns the all-zero 32-byte root, a nil tree and an empty `Distribution`, with
no error — for every behavior of the remaining oracles (none of them is
consulted). -/
theorem calculateStakeTableRoot_zeroCount
    (getRange : Nat → Nat → Except String (List OperatorSet))
    (calcBytes : OperatorSet → Except String (List Nat))
    (encodeLeaf : List Nat → List Nat)
    (newTree : List (Option (List Nat)) → Except String MerkleTreeM) :
    calculateStakeTableRoot (.ok 0) getRange calcBytes encodeLeaf newTree =
      .ok ⟨zeroRoot, none, newDistribution⟩ := rfl

/-- Loop invariant for `calcLoop`: when every pending operator set has an
index, the loop cannot fail, it never changes the index map, and for a group
whose byte computation fails the table data is left untouched. -/
theorem calcLoop_ok (calcBytes : OperatorSet → Except String (List Nat))
    (encodeLeaf : List Nat → List Nat) :
    ∀ (todo : List OperatorSet) (d : Distribution),
    (∀ k, k ∈ todo → d.tableIndices k ≠ none) →
    ∃ d2 leaves, calcLoop calcBytes encodeLeaf todo d = .ok (d2, leaves) ∧
      d2.tableIndices = d.tableIndices ∧
      (∀ k e, calcBytes k = .error e → d2.tableData k = d.tableData k) := by
  intro todo
  induction todo with
  | nil =>
    intro d _
    exact ⟨d, [], rfl, rfl, fun _ _ _ => rfl⟩
  | cons a rest ih =>
    intro d hidx
    cases hca : calcBytes a with
    | error msg =>
      rcases ih d (fun k hk => hidx k (List.mem_cons_of_mem a hk)) with
        ⟨d2, leaves, hloop, hind, hdata⟩
      refine ⟨d2, none :: leaves, ?_, hind, hdata⟩
      simp only [calcLoop, hca, hloop]
    | ok tableBytes =>
      have hia : d.tableIndices a ≠ none := hidx a (List.mem_cons_self a rest)
      cases hset : d.setTableData a tableBytes with
      | error e =>
        exfalso
        rw [Distribution.setTableData] at hset
        cases hi : d.tableIndices a with
        | none => exact hia hi
        | some j => rw [hi] at hset; cases hset
      | ok dset =>
        have hsetInd : dset.tableIndices = d.tableIndices := by
          rw [Distribution.setTableData] at hset
          cases hi : d.tableIndices a with
          | none => exact absurd hi hia
          | some j => rw [hi] at hset; cases hset; rfl
        have hsetData : ∀ k, k ≠ a → dset.tableData k = d.tableData k := by
          intro k hk
          rw [Distribution.setTableData] at hset
          cases hi : d.tableIndices a with
          | none => exact absurd hi hia
          | some j =>
            rw [hi] at hset
            cases hset
            simp [hk]
        rcases ih dset (fun k hk => by
            rw [hsetInd]; exact hidx k (List.mem_cons_of_mem a hk)) with
          ⟨d3, leaves, hloop, hind, hdata⟩
        refine ⟨d3, some (encodeLeaf tableBytes) :: leaves, ?_, ?_, ?_⟩
        · simp only [calcLoop, hca, hset, hloop]
        · rw [hind, hsetInd]
        · intro k e hke
          have hka : k ≠ a := fun hkeq => by rw [hkeq, hca] at hke; cases hke
          rw [hdata k e hke, hsetData k hka]

/-- C2 counterexample: a reference block with one active group whose table-byte
computation fails, yet `CalculateStakeTableRoot` completes without error — the
code logs and continues instead of aborting, so the claimed abort-on-error
behavior does not hold. -/
theorem calculateStakeTableRoot_failure_not_abort :
    isOkE (calculateStakeTableRoot (.ok 1) (fun _ _ => .ok [⟨1, 17⟩])
      (fun _ => .error "boom") (fun b => b) (fun _ => .ok ⟨[1]⟩)) = true := by
  have h1 : pageRanges 1 0 = [(0, 1)] := by
    rw [pageRanges, pageRanges]
    norm_num
  have hfetch : fetchActiveGenerationReservationsPaginated (.ok 1)
      (fun _ _ => .ok [⟨1, 17⟩]) = .ok [⟨1, 17⟩] := by
    show (if (1 : Nat) = 0 then Except.ok [] else fetchLoop (fun _ _ => .ok [⟨1, 17⟩]) 1 0) = _
    rw [if_neg (by norm_num), fetchLoop_eq_runRanges, h1]
    rfl
  unfold calculateStakeTableRoot
  rw [hfetch]
  rfl

/-- C2 (amended): if computing the table payload of a group fails during
`CalculateStakeTableRoot`, the group is skipped — its leaf slot left `nil` and
its table data unset — and the calculation continues without returning an
error (provided tree construction succeeds). -/
theorem calculateStakeTableRoot_skips_failed_groups
    (getCount : Except String Nat)
    (getRange : Nat → Nat → Except String (List OperatorSet))
    (l : List OperatorSet)
    (hfetch : fetchActiveGenerationReservationsPaginated getCount getRange = .ok l)
    (hne : l ≠ [])
    (calcBytes : OperatorSet → Except String (List Nat))
    (encodeLeaf : List Nat → List Nat)
    (newTree : List (Option (List Nat)) → Except String MerkleTreeM)
    (htree : ∀ leaves, ∃ t, newTree leaves = .ok t) :
    ∃ res, calculateStakeTableRoot getCount getRange calcBytes encodeLeaf newTree = .ok res ∧
      ∀ k e, calcBytes k = .error e → res.dist.getTableData k = none := by
  have hidx : ∀ k, k ∈ l → (newDistribution.setOperatorSets l).tableIndices k ≠ none := by
    intro k hk
    show (newDistributionWithOperatorSets l).tableIndices k ≠ none
    rw [newDistributionWithOperatorSets_tableIndices]
    exact lastOcc_isSome_of_mem hk
  rcases calcLoop_ok calcBytes encodeLeaf l (newDistribution.setOperatorSets l) hidx with
    ⟨d2, leaves, hloop, _, hdata⟩
  rcases htree leaves with ⟨t, ht⟩
  refine ⟨⟨t.root, some t, d2⟩, ?_, ?_⟩
  · unfold calculateStakeTableRoot
    rw [hfetch]
    simp only [List.length_eq_zero]
    rw [if_neg hne]
    simp only [hloop, ht]
  · intro k e hke
    show d2.tableData k = none
    rw [hdata k e hke]
    rfl

theorem calculateStakeTableRoot_skips_failed_groups_witness :
    ∃ res, calculateStakeTableRoot (.ok 1) (fun _ _ => .ok [⟨1, 17⟩])
        (fun _ => .error "boom") (fun b => b) (fun _ => .ok ⟨[1]⟩) = .ok res ∧
      ∀ k e, (fun _ : OperatorSet => (.error "boom" : Except String (List Nat))) k = .error e →
        res.dist.getTableData k = none :=
  calculateStakeTableRoot_skips_failed_groups (.ok 1) (fun _ _ => .ok [⟨1, 17⟩]) [⟨1, 17⟩]
    (by
      have h1 : pageRanges 1 0 = [(0, 1)] := by
        rw [pageRanges, pageRanges]
        norm_num
      show (if (1 : Nat) = 0 then Except.ok [] else
        fetchLoop (fun _ _ => .ok [⟨1, 17⟩]) 1 0) = _
      rw [if_neg (by norm_num), fetchLoop_eq_runRanges, h1]
      rfl)
    (by simp)
    (fun _ => .error "boom") (fun b => b) (fun _ => .ok ⟨[1]⟩)
    (fun _ => ⟨⟨[1]⟩, rfl⟩)

/-! ### Transport (`transport.SignAndTransportGlobalTableRoot`)

All per-chain external calls — chain lookup, contract binding, message-hash
query, BLS signing, recorded-timestamp query, transaction options, the
confirmation call and gas-estimation/submission — are oracles of `Except`
type collected in `TransportEnv`. -/

/-- Embeds `IBN254CertificateVerifierTypesBN254Certificate`: message hash, reference
timestamp, aggregate signature (G1) and aggregate public key (G2), points
modelled by their precompile-format bytes. -/
structure Certificate where
  messageHash : List Nat
  referenceTimestamp : Nat
  signature : List Nat
  apk : List Nat

/-- The external collaborators of `SignAndTransportGlobalTableRoot`, in the
order the function consults them. Handles (chains, transactors, transact
options, transactions, receipts) are abstract `Nat` tokens. -/
structure TransportEnv where
  getApk : Except String (List Nat)
  getSupportedChains : Except String (List (Nat × Nat))
  getChainForId : Nat → Except String Nat
  getUpdaterForChainClient : Nat → Nat → Except String Nat
  getGlobalTableUpdateMessageHash : Nat → List Nat → Nat → Nat → Except String (List Nat)
  signMessageHash : List Nat → Except String (List Nat)
  getGeneratorReferenceTimestamp : Nat → Except String Nat
  getNoSendTransactOpts : Nat → Except String Nat
  confirmGlobalTableRoot : Nat → Nat → Certificate → List Nat → Nat → Nat → Except String Nat
  sendTxAndWait : Nat → Nat → Except String Nat

/-- The per-chain loop of `SignAndTransportGlobalTableRoot`: skip ignored
chain ids, then per chain: resolve the chain, bind the operator-table-updater
at its address, query the canonical message hash of the chain for
`(root, referenceTimestamp, referenceBlockHeight)`, BLS-sign that hash, read
the previously recorded generator reference timestamp (which goes into the
certificate), build no-send transact options, create the confirmation
transaction, then estimate gas and send it; any failure aborts the loop. -/
def transportChains (env : TransportEnv) (root : List Nat) (refTs refBh : Nat)
    (apk : List Nat) (ignoreChainIds : List Nat) :
    List (Nat × Nat) → Except String Unit
  | [] => .ok ()
  | (chainId, addr) :: rest =>
    if ignoreChainIds.contains chainId then
      transportChains env root refTs refBh apk ignoreChainIds rest
    else
      match env.getChainForId chainId with
      | .error e => .error ("failed to get chain for ID: " ++ e)
      | .ok chain =>
        match env.getUpdaterForChainClient addr chain with
        | .error e => .error ("failed to get operator table updater transactor for chain: " ++ e)
        | .ok updater =>
          match env.getGlobalTableUpdateMessageHash updater root refTs refBh with
          | .error e => .error ("failed to get global table update message hash: " ++ e)
          | .ok messageHash =>
            match env.signMessageHash messageHash with
            | .error e => .error e
            | .ok sigG1 =>
              match env.getGeneratorReferenceTimestamp updater with
              | .error e => .error ("failed to get latest reference timestamp: " ++ e)
              | .ok previouslyReferencedTimestamp =>
                match env.getNoSendTransactOpts chainId with
                | .error e => .error ("failed to get transaction options: " ++ e)
                | .ok txOpts =>
                  match env.confirmGlobalTableRoot updater txOpts
                      ⟨messageHash, previouslyReferencedTimestamp, sigG1, apk⟩
                      root refTs refBh with
                  | .error e => .error e
                  | .ok tx =>
                    match env.sendTxAndWait chain tx with
                    | .error e => .error ("failed to ensure transaction evaled: " ++ e)
                    | .ok _ =>
                      transportChains env root refTs refBh apk ignoreChainIds rest

/-- Embeds `SignAndTransportGlobalTableRoot`: zero-root no-op check first, then
aggregate public key, supported-chain enumeration (empty list is an error),
then the per-chain loop. -/
def signAndTransportGlobalTableRoot (env : TransportEnv) (root : List Nat)
    (refTs refBh : Nat) (ignoreChainIds : List Nat) : Except String Unit :=
  if root = zeroRoot then .ok ()
  else
    match env.getApk with
    | .error e => .error ("failed to get APK from private key: " ++ e)
    | .ok apk =>
      match env.getSupportedChains with
      | .error e => .error ("failed to get supported chains: " ++ e)
      | .ok chains =>
        if chains.length = 0 then .error "no supported chains found in cross-chain registry"
        else transportChains env root refTs refBh apk ignoreChainIds chains

/-- C5: calling `SignAndTransportGlobalTableRoot` with the all-zero 32-byte
sentinel root returns `nil` immediately, for every environment — in particular
no supported-chain enumeration, signing or transaction submission can be
observed, since the result does not depend on any oracle. -/
theorem signAndTransportGlobalTableRoot_zeroRoot_noop (env : TransportEnv)
    (refTs refBh : Nat) (ignoreChainIds : List Nat) :
    signAndTransportGlobalTableRoot env zeroRoot refTs refBh ignoreChainIds = .ok () := by
  simp [signAndTransportGlobalTableRoot]

/-! ### KMS signer post-processing (`txSigner/awsKmsSigner.go`, `txSigner` KMS transactor) -/

/-- Embeds the curve parameter N of secp256k1: the group order. -/
def secp256k1N : Nat :=
  115792089237316195423570985008687907852837564279074904382605163141518161494337

/-- Embeds `secp256k1HalfN`, defined as N / 2 with integer division. -/
def secp256k1HalfN : Nat := secp256k1N / 2

/-- The S-adjustment block of `AWSKMSSigner.SignerFn`:
`if sBigInt.Cmp(secp256k1HalfN) > 0 { sBytes = (N - s).Bytes() }`,
at the level of the integer values involved. -/
def adjustS (s : Nat) : Nat :=
  if s > secp256k1HalfN then secp256k1N - s else s

/-- C6: for every ECDSA `s` value returned by the HSM (a group element, so
`s < N`), the signer replaces `s > N/2` by `N − s`, which lands in the low
half, and leaves `s ≤ N/2` unchanged. -/
theorem adjustS_lowS (s : Nat) (hs : s < secp256k1N) :
    (s > secp256k1HalfN → adjustS s = secp256k1N - s ∧ adjustS s ≤ secp256k1HalfN)
    ∧ (s ≤ secp256k1HalfN → adjustS s = s) := by
  have hN : secp256k1N = 2 * secp256k1HalfN + 1 := by decide
  constructor
  · intro h
    have he : adjustS s = secp256k1N - s := by rw [adjustS, if_pos h]
    exact ⟨he, by rw [he]; omega⟩
  · intro h
    rw [adjustS, if_neg (by omega)]

theorem adjustS_lowS_witness :
    secp256k1N - 1 < secp256k1N ∧ secp256k1N - 1 > secp256k1HalfN ∧
      (adjustS (secp256k1N - 1) = secp256k1N - (secp256k1N - 1) ∧
        adjustS (secp256k1N - 1) ≤ secp256k1HalfN) :=
  ⟨by decide, by decide, (adjustS_lowS (secp256k1N - 1) (by decide)).1 (by decide)⟩

/-- Embeds `adjustSignatureLength`: trim leading zero bytes, then left-pad with zero
bytes to 32 (the Go loop prepends one zero at a time while the length is
below 32). -/
def adjustSignatureLength (buffer : List Nat) : List Nat :=
  let b := buffer.dropWhile (fun x => x = 0)
  List.replicate (32 - b.length) 0 ++ b

/-- Embeds `AWSKMSSigner.getEthereumSignature`: build the 65-byte signature with `v = 0`, recover
the public key via `crypto.Ecrecover` (an external primitive, passed as an
oracle over the hash and the 65-byte signature); if it differs from the
expected key bytes, retry with `v = 1`; if that still differs, fail with the
mismatch error. Recovery failures propagate. -/
def getEthereumSignature
    (ecrecover : List Nat → List Nat → Except String (List Nat))
    (expectedPublicKeyBytes txHash r s : List Nat) : Except String (List Nat) :=
  let rsSignature := adjustSignatureLength r ++ adjustSignatureLength s
  match ecrecover txHash (rsSignature ++ [0]) with
  | .error e => .error e
  | .ok recovered =>
    if recovered = expectedPublicKeyBytes then .ok (rsSignature ++ [0])
    else
      match ecrecover txHash (rsSignature ++ [1]) with
      | .error e => .error e
      | .ok recovered2 =>
        if recovered2 = expectedPublicKeyBytes then .ok (rsSignature ++ [1])
        else .error "recovered public key does not match expected public key"

/-- C7: the recovery id is determined by trial in order: if recovery with
candidate 0 yields the expected key, that signature is returned; otherwise,
if candidate 1 yields the expected key, that one is; and when both candidates
recover keys different from the expected one, the function returns the
explicit mismatch error and never a signature. -/
theorem getEthereumSignature_recovery_trial
    (ecrecover : List Nat → List Nat → Except String (List Nat))
    (expected txHash r s : List Nat) :
    (ecrecover txHash ((adjustSignatureLength r ++ adjustSignatureLength s) ++ [0]) =
        .ok expected →
      getEthereumSignature ecrecover expected txHash r s =
        .ok ((adjustSignatureLength r ++ adjustSignatureLength s) ++ [0]))
    ∧ (∀ p0, ecrecover txHash ((adjustSignatureLength r ++ adjustSignatureLength s) ++ [0]) =
        .ok p0 → p0 ≠ expected →
      ecrecover txHash ((adjustSignatureLength r ++ adjustSignatureLength s) ++ [1]) =
        .ok expected →
      getEthereumSignature ecrecover expected txHash r s =
        .ok ((adjustSignatureLength r ++ adjustSignatureLength s) ++ [1]))
    ∧ (∀ p0 p1, ecrecover txHash ((adjustSignatureLength r ++ adjustSignatureLength s) ++ [0]) =
        .ok p0 → p0 ≠ expected →
      ecrecover txHash ((adjustSignatureLength r ++ adjustSignatureLength s) ++ [1]) =
        .ok p1 → p1 ≠ expected →
      getEthereumSignature ecrecover expected txHash r s =
        .error "recovered public key does not match expected public key") := by
  refine ⟨?_, ?_, ?_⟩
  · intro h
    simp only [getEthereumSignature]
    rw [h]
    simp
  · intro p0 h0 hne h1
    simp only [getEthereumSignature]
    rw [h0]
    simp only [if_neg hne]
    rw [h1]
    simp
  · intro p0 p1 h0 hne0 h1 hne1
    simp only [getEthereumSignature]
    rw [h0]
    simp only [if_neg hne0]
    rw [h1]
    simp only [if_neg hne1]

theorem getEthereumSignature_recovery_trial_witness :
    getEthereumSignature
      (fun _ sig => if sig.getLast? = some 1 then .ok [7] else .ok [9])
      [7] [5] [2] [3] =
      .ok ((adjustSignatureLength [2] ++ adjustSignatureLength [3]) ++ [1]) :=
  (getEthereumSignature_recovery_trial
      (fun _ sig => if sig.getLast? = some 1 then .ok [7] else .ok [9]) [7] [5] [2] [3]).2.1
    [9] (by simp) (by decide) (by simp)

/-! ### Gas estimation and submission (`transport.estimateGasPriceAndLimitAndSendTx`) -/

/-- Embeds the Go constant `FallbackGasTipCap` (15000000000). -/
def FallbackGasTipCap : Nat := 15000000000

/-- Embeds `addGasBuffer`: `6 * gasLimit / 5`, i.e. a fixed 20% buffer. -/
def addGasBuffer (gasLimit : Nat) : Nat := 6 * gasLimit / 5

/-- The finalized gas parameters placed on the transact options before
re-signing and broadcasting. -/
structure GasParams where
  gasTipCap : Nat
  gasFeeCap : Nat
  gasLimit : Nat
deriving DecidableEq, Repr

/-- Embeds `ensureTransactionEvaled`: wait for the receipt; a non-success status is
the fatal `ErrTransactionFailed`. The receipt is `(status, handle)`. -/
def ensureTransactionEvaled (waitMined : Nat → Except String (Nat × Nat)) (tx : Nat) :
    Except String Nat :=
  match waitMined tx with
  | .error e => .error ("ensureTransactionEvaled: failed to wait for transaction to mine: " ++ e)
  | .ok (status, receipt) =>
    if status ≠ 1 then .error "ErrTransactionFailed" else .ok receipt

/-- The tail of `estimateGasPriceAndLimitAndSendTx`: `RawTransact` with the
finalized gas parameters and the fixed nonce, then wait for the receipt. -/
def submitWithParams (rawTransact : GasParams → Nat → Except String Nat)
    (waitMined : Nat → Except String (Nat × Nat)) (params : GasParams) (nonce : Nat) :
    Except String Nat :=
  match rawTransact params nonce with
  | .error e => .error ("EstimateGasPriceAndLimitAndSendTx: failed to send txn: " ++ e)
  | .ok tx => ensureTransactionEvaled waitMined tx

/-- Embeds `estimateGasPriceAndLimitAndSendTx`: suggest a tip cap (fall back to the
constant on failure), fetch the base fee of the latest header, compute
`gasFeeCap = baseFee*3/2 + gasTipCap`, simulate the call to estimate gas, add
the 20% buffer, then submit with the fixed nonce. -/
def estimateGasPriceAndLimitAndSendTx
    (suggestGasTipCap : Except String Nat)
    (headerBaseFee : Except String Nat)
    (estimateGas : Nat → Nat → Except String Nat)
    (txNonce : Nat)
    (rawTransact : GasParams → Nat → Except String Nat)
    (waitMined : Nat → Except String (Nat × Nat)) : Except String Nat :=
  let gasTipCap :=
    match suggestGasTipCap with
    | .error _ => FallbackGasTipCap
    | .ok v => v
  match headerBaseFee with
  | .error e => .error e
  | .ok baseFee =>
    let gasFeeCap := baseFee * 3 / 2 + gasTipCap
    match estimateGas gasTipCap gasFeeCap with
    | .error e => .error e
    | .ok gasLimit =>
      submitWithParams rawTransact waitMined ⟨gasTipCap, gasFeeCap, addGasBuffer gasLimit⟩ txNonce

/-- C8: every submission goes out with `gasFeeCap = baseFee*3/2 + gasTipCap`
(integer arithmetic over the base fee of the latest header) and
`gasLimit = 6*estimate/5` (the fixed 20% buffer); and when the tip-cap
query fails, the fallback constant is used as the tip cap instead of failing
the transaction. -/
theorem estimateGasPriceAndLimitAndSendTx_params
    (tipRes : Except String Nat) (baseFee : Nat)
    (estimateGas : Nat → Nat → Except String Nat) (nonce : Nat)
    (rawTransact : GasParams → Nat → Except String Nat)
    (waitMined : Nat → Except String (Nat × Nat)) :
    (∀ tip gasLimit, tipRes = .ok tip →
      estimateGas tip (baseFee * 3 / 2 + tip) = .ok gasLimit →
      estimateGasPriceAndLimitAndSendTx tipRes (.ok baseFee) estimateGas nonce
          rawTransact waitMined =
        submitWithParams rawTransact waitMined
          ⟨tip, baseFee * 3 / 2 + tip, 6 * gasLimit / 5⟩ nonce)
    ∧ (∀ e gasLimit, tipRes = .error e →
      estimateGas FallbackGasTipCap (baseFee * 3 / 2 + FallbackGasTipCap) = .ok gasLimit →
      estimateGasPriceAndLimitAndSendTx tipRes (.ok baseFee) estimateGas nonce
          rawTransact waitMined =
        submitWithParams rawTransact waitMined
          ⟨FallbackGasTipCap, baseFee * 3 / 2 + FallbackGasTipCap, 6 * gasLimit / 5⟩ nonce) := by
  constructor
  · intro tip gasLimit htip hest
    subst htip
    simp only [estimateGasPriceAndLimitAndSendTx]
    rw [hest]
    rfl
  · intro e gasLimit htip hest
    subst htip
    simp only [estimateGasPriceAndLimitAndSendTx]
    rw [hest]
    rfl

theorem estimateGasPriceAndLimitAndSendTx_params_witness :
    estimateGasPriceAndLimitAndSendTx (.error "eth_maxPriorityFeePerGas unsupported")
        (.ok 100) (fun _ _ => .ok 1000) 9 (fun _ _ => .ok 1) (fun _ => .ok (1, 42)) =
      submitWithParams (fun _ _ => .ok 1) (fun _ => .ok (1, 42))
        ⟨FallbackGasTipCap, 100 * 3 / 2 + FallbackGasTipCap, 6 * 1000 / 5⟩ 9 :=
  (estimateGasPriceAndLimitAndSendTx_params (.error "eth_maxPriorityFeePerGas unsupported")
      100 (fun _ _ => .ok 1000) 9 (fun _ _ => .ok 1) (fun _ => .ok (1, 42))).2
    "eth_maxPriorityFeePerGas unsupported" 1000 rfl rfl

/-! ### Proof flattening (`transport.flattenHashes`) -/

/-- Embeds `flattenHashes`: append each sibling hash to the result buffer in proof
order (`result = append(result, hashes[i]...)`). -/
def flattenHashes (hashes : List (List Nat)) : List Nat :=
  hashes.foldl (fun result h => result ++ h) []

/-- Modelled from the spec: the destination verifier re-splits the flattened
proof buffer at the fixed 32-byte hash width; that re-splitting is performed
outside this repository. -/
def splitHashes (buf : List Nat) : List (List Nat) :=
  if h : buf = [] then []
  else buf.take 32 :: splitHashes (buf.drop 32)
termination_by buf.length
decreasing_by
  simp only [List.length_drop]
  have : 0 < buf.length := List.length_pos.mpr h
  omega

theorem foldl_append_acc (t : List (List Nat)) : ∀ acc : List Nat,
    List.foldl (fun result h => result ++ h) acc t =
      acc ++ List.foldl (fun result h => result ++ h) [] t := by
  induction t with
  | nil => intro acc; simp
  | cons x xs ih =>
    intro acc
    simp only [List.foldl_cons]
    rw [ih (acc ++ x), ih ([] ++ x)]
    simp [List.append_assoc]

theorem flattenHashes_cons (h : List Nat) (t : List (List Nat)) :
    flattenHashes (h :: t) = h ++ flattenHashes t := by
  show List.foldl _ ([] ++ h) t = h ++ List.foldl _ [] t
  rw [foldl_append_acc t ([] ++ h)]
  simp

/-- C9: for every ordered list of 32-byte sibling hashes, flattening by
concatenation in proof order and re-splitting the buffer at the fixed 32-byte
width reproduces the original ordered hash list. -/
theorem flattenHashes_splitHashes_roundtrip (hashes : List (List Nat))
    (hlen : ∀ h, h ∈ hashes → h.length = 32) :
    splitHashes (flattenHashes hashes) = hashes := by
  induction hashes with
  | nil =>
    rw [splitHashes]
    simp [flattenHashes]
  | cons h t ih =>
    have hh : h.length = 32 := hlen h (List.mem_cons_self h t)
    rw [flattenHashes_cons, splitHashes]
    have hne : h ++ flattenHashes t ≠ [] := by
      intro hcon
      have : (h ++ flattenHashes t).length = 0 := by rw [hcon]; rfl
      simp only [List.length_append, hh] at this
      omega
    rw [dif_neg hne]
    congr 1
    · rw [← hh, List.take_left]
    · rw [← hh, List.drop_left]
      exact ih (fun x hx => hlen x (List.mem_cons_of_mem h hx))

theorem flattenHashes_splitHashes_roundtrip_witness :
    splitHashes (flattenHashes [List.replicate 32 1, List.replicate 32 2]) =
      [List.replicate 32 1, List.replicate 32 2] :=
  flattenHashes_splitHashes_roundtrip [List.replicate 32 1, List.replicate 32 2] (by decide)

/-- C1: for every non-empty list of distinct group keys passed to
`Distribution.SetOperatorSets` (and hence `NewDistributionWithOperatorSets`),
the resulting `TableIndices` is a bijection from the keys onto `[0, N)` where
`N` is the list length, and the index of each key equals its zero-based position in
the input list: (i) a key maps to `n` iff it is the `n`-th input element,
(ii) every index below `N` is hit, (iii) no two keys share an index. -/
theorem setOperatorSets_index_bijection (l : List OperatorSet) (hne : l ≠ [])
    (hnd : l.Nodup) :
    (∀ k n, (newDistributionWithOperatorSets l).tableIndices k = some n ↔ l[n]? = some k)
    ∧ (∀ n, n < l.length → ∃ k, (newDistributionWithOperatorSets l).tableIndices k = some n)
    ∧ (∀ k k2 n, (newDistributionWithOperatorSets l).tableIndices k = some n →
        (newDistributionWithOperatorSets l).tableIndices k2 = some n → k = k2) := by
  have hmain : ∀ k n, (newDistributionWithOperatorSets l).tableIndices k = some n ↔
      l[n]? = some k := by
    intro k n
    rw [newDistributionWithOperatorSets_tableIndices]
    constructor
    · exact fun h => lastOcc_getElem h
    · intro hget
      refine lastOcc_iff.mpr ⟨hget, ?_⟩
      intro m hm hcon
      have hn : n < l.length := (List.getElem?_eq_some.mp hget).1
      have : n = m := List.getElem?_inj hn hnd (hget.trans hcon.symm)
      omega
  refine ⟨hmain, ?_, ?_⟩
  · intro n hn
    refine ⟨l[n], (hmain l[n] n).mpr ?_⟩
    exact List.getElem?_eq_some.mpr ⟨hn, rfl⟩
  · intro k k2 n h1 h2
    have e1 := (hmain k n).mp h1
    have e2 := (hmain k2 n).mp h2
    rw [e1] at e2
    exact (Option.some.injEq _ _).mp e2

theorem setOperatorSets_index_bijection_witness :
    (newDistributionWithOperatorSets [⟨1, 10⟩, ⟨2, 20⟩]).tableIndices ⟨2, 20⟩ = some 1 :=
  ((setOperatorSets_index_bijection [⟨1, 10⟩, ⟨2, 20⟩] (by decide) (by decide)).1
    ⟨2, 20⟩ 1).mpr (by decide)

/-- C10: for every input list to `SetOperatorSets`, including lists with
duplicate group keys, the resulting `TableIndices` (i) contains exactly the
distinct keys of the list, (ii) maps each key to the zero-based position of its
last occurrence, and (iii) a duplicated key leaves a gap: no key at all is
mapped to the position of the earlier occurrence (so the indices are dense on
`[0, N)` only when the input is duplicate-free). -/
theorem setOperatorSets_duplicate_semantics (l : List OperatorSet) :
    (∀ k, ((newDistributionWithOperatorSets l).tableIndices k).isSome = true ↔ k ∈ l)
    ∧ (∀ k n, (newDistributionWithOperatorSets l).tableIndices k = some n ↔
        (l[n]? = some k ∧ ∀ m, n < m → l[m]? ≠ some k))
    ∧ (∀ i j k, l[i]? = some k → l[j]? = some k → i < j →
        ∀ k2, (newDistributionWithOperatorSets l).tableIndices k2 ≠ some i) := by
  refine ⟨?_, ?_, ?_⟩
  · intro k
    rw [newDistributionWithOperatorSets_tableIndices]
    constructor
    · intro h
      rcases Option.isSome_iff_exists.mp h with ⟨j, hj⟩
      exact lastOcc_mem hj
    · intro h
      exact Option.isSome_iff_ne_none.mpr (lastOcc_isSome_of_mem h)
  · intro k n
    rw [newDistributionWithOperatorSets_tableIndices]
    exact lastOcc_iff
  · intro i j k hi hj hij k2 hcon
    rw [newDistributionWithOperatorSets_tableIndices] at hcon
    have h1 := lastOcc_getElem hcon
    have h2 := lastOcc_last hcon
    have hk2 : k2 = k := by
      rw [hi] at h1
      exact ((Option.some.injEq _ _).mp h1).symm
    subst hk2
    exact h2 j hij hj

theorem setOperatorSets_duplicate_semantics_witness :
    (newDistributionWithOperatorSets [⟨1, 10⟩, ⟨2, 20⟩, ⟨1, 10⟩]).tableIndices ⟨2, 20⟩ ≠ some 0 :=
  (setOperatorSets_duplicate_semantics [⟨1, 10⟩, ⟨2, 20⟩, ⟨1, 10⟩]).2.2
    0 2 ⟨1, 10⟩ (by decide) (by decide) (by decide) ⟨2, 20⟩

end Multichain
